import Mathlib

/-!
# Incremental PCA (flucoma-core): embedding and verified properties

Shallow embedding of

* `include/algorithms/util/IncrementalMeanVar.hpp` (`incrementalMeanVariance`)
* `include/algorithms/public/PCA.hpp` (class `PCA`)
* `include/clients/nrt/BufSelectEveryClient.hpp` (`BufSelectEveryClient::process`)

Conventions of the embedding.

* A C++ `double` is a `Dbl`: an exact rational, or `nan`.  Arithmetic is exact
  on rationals, `nan` is absorbing, and a division by zero gives `nan`.
* `index` (a signed machine integer) is an `Int`; sizes of Eigen objects are `Nat`.
* An Eigen vector / matrix is its size together with its coefficient function.
  Coefficient-wise operations take their shape from the left operand (Eigen
  requires both operands to have the same shape).
* The two primitives of external libraries, the scalar square root and the
  thin singular value decomposition `Eigen::BDCSVD`, are parameters.
-/

namespace fluid
namespace algorithm

/-! ## Doubles in exact arithmetic -/

/-- A `double` in exact arithmetic: not-a-number, or a rational value. -/
inductive Dbl where
  | nan : Dbl
  | num (q : ℚ) : Dbl
deriving DecidableEq

namespace Dbl

/-- Sum of two doubles; `nan` is absorbing. -/
def add : Dbl → Dbl → Dbl
  | num a, num b => num (a + b)
  | _, _ => nan

/-- Difference of two doubles; `nan` is absorbing. -/
def sub : Dbl → Dbl → Dbl
  | num a, num b => num (a - b)
  | _, _ => nan

/-- Product of two doubles; `nan` is absorbing (also `nan * 0`). -/
def mul : Dbl → Dbl → Dbl
  | num a, num b => num (a * b)
  | _, _ => nan

/-- Quotient of two doubles; a zero divisor gives a non-finite result, `nan`. -/
def div : Dbl → Dbl → Dbl
  | num a, num b => if b = 0 then nan else num (a / b)
  | _, _ => nan

instance : Add Dbl := ⟨add⟩
instance : Sub Dbl := ⟨sub⟩
instance : Mul Dbl := ⟨mul⟩
instance : Div Dbl := ⟨div⟩
instance : Zero Dbl := ⟨num 0⟩
instance : Inhabited Dbl := ⟨num 0⟩

/-- Conversion of an `index` to `double`. -/
def ofInt (n : Int) : Dbl := num (n : ℚ)

/-- Conversion of a size to `double`. -/
def ofNat (n : Nat) : Dbl := num (n : ℚ)

/-- The test `std::isnan`. -/
def isNaN : Dbl → Bool
  | nan => true
  | num _ => false

/-- The rational value of a double, with not-a-number read as zero. -/
def toRatZeroNaN : Dbl → ℚ
  | nan => 0
  | num q => q

end Dbl

/-- Sum of `f 0, ..., f (n-1)`, accumulated from index `0` upwards, starting at zero. -/
def sumUpTo (f : Nat → Dbl) : Nat → Dbl
  | 0 => Dbl.num 0
  | n + 1 => sumUpTo f n + f n

/-! ## Eigen containers -/

/-- A column vector of doubles (`Eigen::ArrayXd`, `Eigen::VectorXd`). -/
structure ArrayXd where
  size : Nat
  coeff : Nat → Dbl

/-- A matrix of doubles (`Eigen::ArrayXXd`, `Eigen::MatrixXd`). -/
structure ArrayXXd where
  rows : Nat
  cols : Nat
  coeff : Nat → Nat → Dbl

namespace ArrayXd

/-- The row count of a column vector is its size. -/
def rows (a : ArrayXd) : Nat := a.size

/-- The column count of a column vector is fixed by its type: always one. -/
def cols (_a : ArrayXd) : Nat := 1

/-- Coefficient-wise `a * s` for a scalar `s`. -/
def mulScalar (a : ArrayXd) (s : Dbl) : ArrayXd := ⟨a.size, fun j => a.coeff j * s⟩

/-- Coefficient-wise `s * a` for a scalar `s`. -/
def scalarMul (s : Dbl) (a : ArrayXd) : ArrayXd := ⟨a.size, fun j => s * a.coeff j⟩

/-- Coefficient-wise `a / s` for a scalar `s`. -/
def divScalar (a : ArrayXd) (s : Dbl) : ArrayXd := ⟨a.size, fun j => a.coeff j / s⟩

/-- Coefficient-wise sum. -/
def add (a b : ArrayXd) : ArrayXd := ⟨a.size, fun j => a.coeff j + b.coeff j⟩

/-- Coefficient-wise difference. -/
def sub (a b : ArrayXd) : ArrayXd := ⟨a.size, fun j => a.coeff j - b.coeff j⟩

/-- Coefficient-wise square, `.square()`. -/
def square (a : ArrayXd) : ArrayXd := ⟨a.size, fun j => a.coeff j * a.coeff j⟩

/-- Coefficient-wise square root, `.sqrt()`, over the scalar primitive `sqrt`. -/
def sqrt (sqrt : Dbl → Dbl) (a : ArrayXd) : ArrayXd := ⟨a.size, fun j => sqrt (a.coeff j)⟩

/-- Sum of all coefficients, `.sum()`. -/
def sum (a : ArrayXd) : Dbl := sumUpTo a.coeff a.size

/-- All coefficients set to zero, size kept: `.setZero()`. -/
def setZero (a : ArrayXd) : ArrayXd := ⟨a.size, fun _ => Dbl.num 0⟩

/-- A vector given by the list of its coefficients. -/
def ofList (l : List ℚ) : ArrayXd := ⟨l.length, fun j => Dbl.num (l.getD j 0)⟩

end ArrayXd

namespace ArrayXXd

/-- The expression `a.isNaN().select(0, a)`: every not-a-number entry replaced by zero. -/
def selectZeroIfNaN (a : ArrayXXd) : ArrayXXd :=
  ⟨a.rows, a.cols, fun i j => if (a.coeff i j).isNaN then Dbl.num 0 else a.coeff i j⟩

/-- Column sums, `.colwise().sum()`: one entry per column. -/
def colwiseSum (a : ArrayXXd) : ArrayXd := ⟨a.cols, fun j => sumUpTo (fun i => a.coeff i j) a.rows⟩

/-- Column means, `.colwise().mean()`: the column sum over the row count. -/
def colwiseMean (a : ArrayXXd) : ArrayXd :=
  ⟨a.cols, fun j => sumUpTo (fun i => a.coeff i j) a.rows / Dbl.ofNat a.rows⟩

/-- The expression `a.rowwise() - v.transpose()`: `v` subtracted from every row. -/
def rowwiseSub (a : ArrayXXd) (v : ArrayXd) : ArrayXXd :=
  ⟨a.rows, a.cols, fun i j => a.coeff i j - v.coeff j⟩

/-- The expression `a.rowwise() * v.transpose()`: every row multiplied coefficient-wise by `v`. -/
def rowwiseMul (a : ArrayXXd) (v : ArrayXd) : ArrayXXd :=
  ⟨a.rows, a.cols, fun i j => a.coeff i j * v.coeff j⟩

/-- Coefficient-wise square. -/
def square (a : ArrayXXd) : ArrayXXd := ⟨a.rows, a.cols, fun i j => a.coeff i j * a.coeff i j⟩

/-- Transposition. -/
def transpose (a : ArrayXXd) : ArrayXXd := ⟨a.cols, a.rows, fun i j => a.coeff j i⟩

/-- The leading block `a.block(0, 0, r, c)`. -/
def block (a : ArrayXXd) (r c : Nat) : ArrayXXd := ⟨r, c, a.coeff⟩

/-- Matrix product `a * b`; the inner dimension is the column count of `a`. -/
def matMul (a b : ArrayXXd) : ArrayXXd :=
  ⟨a.rows, b.cols, fun i j => sumUpTo (fun l => a.coeff i l * b.coeff l j) a.cols⟩

/-- All coefficients set to zero, shape kept: `.setZero()`. -/
def setZero (a : ArrayXXd) : ArrayXXd := ⟨a.rows, a.cols, fun _ _ => Dbl.num 0⟩

/-- A matrix with `c` columns given by the list of its rows. -/
def ofRows (c : Nat) (l : List (List ℚ)) : ArrayXXd :=
  ⟨l.length, c, fun i j => Dbl.num ((l.getD i []).getD j 0)⟩

/-- Vertical concatenation of two matrices (the rows of `a`, then the rows of `b`). -/
def vstack (a b : ArrayXXd) : ArrayXXd :=
  ⟨a.rows + b.rows, a.cols, fun i j => if i < a.rows then a.coeff i j else b.coeff (i - a.rows) j⟩

end ArrayXXd

/-- The product `v.transpose() * b` of a row vector with a matrix, as a vector. -/
def rowVecMul (v : ArrayXd) (b : ArrayXXd) : ArrayXd :=
  ⟨b.cols, fun j => sumUpTo (fun l => v.coeff l * b.coeff l j) v.size⟩

/-! ## `IncrementalMeanVar.hpp` -/

namespace _impl

/-- The function `incrementalMeanVariance(data, lastSampleCount, mean, var)`.  The result is the
returned count together with the final contents of the caller's `mean` and `var`. -/
def incrementalMeanVariance (sqrt : Dbl → Dbl) (data : ArrayXXd) (lastSampleCount : Int)
    (mean var : ArrayXd) : Int × ArrayXd × ArrayXd :=
  let rowSums : ArrayXd := data.selectZeroIfNaN.colwiseSum
  let newSampleCount : Int := data.rows
  let lastSum : ArrayXd := mean.mulScalar (Dbl.ofInt lastSampleCount)
  if mean.cols > 0 then
    let updatedSampleCount : Int := lastSampleCount + newSampleCount
    let mean1 : ArrayXd :=
      ((mean.mulScalar (Dbl.ofInt lastSampleCount)).add rowSums).divScalar
        (Dbl.ofInt updatedSampleCount)
    if var.rows > 0 then
      let newUnnormalisedVar : ArrayXd :=
        ((data.selectZeroIfNaN.rowwiseSub mean1).square).colwiseMean
      let lastCountOverNewCount : Dbl := Dbl.ofInt lastSampleCount / Dbl.ofInt newSampleCount
      let var1 : ArrayXd :=
        (((var.square.mulScalar (Dbl.ofInt lastSampleCount)).add
            (newUnnormalisedVar.mulScalar (Dbl.ofInt newSampleCount))).add
          (ArrayXd.scalarMul (lastCountOverNewCount / Dbl.ofInt updatedSampleCount)
            (((lastSum.divScalar lastCountOverNewCount).sub rowSums).square))).divScalar
          (Dbl.ofInt updatedSampleCount)
      let var2 : ArrayXd := var1.sqrt sqrt
      (updatedSampleCount, mean1, var2)
    else
      (updatedSampleCount, mean1, var)
  else
    (lastSampleCount, mean, var)

end _impl

/-! ## `PCA.hpp` -/

/-- What `update` and `init` read from the thin decomposition `Eigen::BDCSVD` of a matrix. -/
structure BDCSVD where
  matrixV : ArrayXXd
  singularValues : ArrayXd

/-- The data members of class `PCA`. -/
structure PCA where
  mBases : ArrayXXd
  mValues : ArrayXd
  mMean : ArrayXd
  mInitialized : Bool
  mSamplesSeen : Int

/-- A vector as a matrix of one row, `v.transpose()`. -/
def ArrayXd.transpose (v : ArrayXd) : ArrayXXd := ⟨1, v.size, fun _ j => v.coeff j⟩

namespace PCA

/-- The member `init(in)`: fit the model to the rows of `input`. -/
def init (svd : ArrayXXd → BDCSVD) (input : ArrayXXd) (self : PCA) : PCA :=
  let mMean : ArrayXd := input.colwiseMean
  let X : ArrayXXd := input.rowwiseSub mMean
  let dec : BDCSVD := svd X
  { self with
    mMean := mMean
    mBases := dec.matrixV
    mValues := dec.singularValues
    mInitialized := true
    mSamplesSeen := input.rows }

/-- The member `init(bases, values, mean)`: install a precomputed model. -/
def initLoad (bases : ArrayXXd) (values mean : ArrayXd) (self : PCA) : PCA :=
  { self with
    mBases := bases
    mValues := values
    mMean := mean
    mInitialized := true }

/-- The member `initialized()`. -/
def initialized (self : PCA) : Bool := self.mInitialized

/-- The member `dims()`. -/
def dims (self : PCA) : Nat := self.mBases.rows

/-- The member `size()`, the number of stored components. -/
def size (self : PCA) : Nat := self.mBases.cols

/-- The member `processFrame(in, out, k)`; the result is the final content of `out`. -/
def processFrame (self : PCA) (input out : ArrayXd) (k : Int) : ArrayXd :=
  if k ≥ (self.mBases.cols : Int) then out
  else
    let input1 : ArrayXd := input.sub self.mMean
    let result : ArrayXd := rowVecMul input1 (self.mBases.block self.mBases.rows k.toNat)
    result

/-- The member `process(in, out, k)`; the result is the returned ratio and the final content
of `out`. -/
def process (self : PCA) (input out : ArrayXXd) (k : Int) : Dbl × ArrayXXd :=
  if k > (self.mBases.cols : Int) then (Dbl.num 0, out)
  else
    let result : ArrayXXd :=
      (input.rowwiseSub self.mMean).matMul (self.mBases.block self.mBases.rows k.toNat)
    let total : Dbl := self.mValues.sum
    let variance : Dbl := sumUpTo self.mValues.coeff k.toNat
    (variance / total, result)

/-- The local `newCount` of `update`: the count returned by `incrementalMeanVariance`. -/
def updateNewCount (sqrt : Dbl → Dbl) (input : ArrayXXd) (self : PCA) : Int :=
  (_impl.incrementalMeanVariance sqrt input self.mSamplesSeen self.mMean
    ⟨0, fun _ => Dbl.num 0⟩).1

/-- The local `colMean` of `update` after the call of `incrementalMeanVariance`. -/
def updateColMean (sqrt : Dbl → Dbl) (input : ArrayXXd) (self : PCA) : ArrayXd :=
  (_impl.incrementalMeanVariance sqrt input self.mSamplesSeen self.mMean
    ⟨0, fun _ => Dbl.num 0⟩).2.1

/-- The local `meanCorrection` of `update`.  It is computed after `mSamplesSeen` has been
assigned `newCount`, and the quotient `mSamplesSeen / newCount` is a quotient of two `index`
values. -/
def updateMeanCorrection (sqrt : Dbl → Dbl) (input : ArrayXXd) (self : PCA) : ArrayXd :=
  let newCount : Int := updateNewCount sqrt input self
  let mSamplesSeen : Int := newCount
  let colBatchMean : ArrayXd := input.colwiseMean
  ArrayXd.scalarMul (sqrt (Dbl.ofInt (Int.tdiv mSamplesSeen newCount * (input.rows : Int))))
    (self.mMean.sub colBatchMean)

/-- The local `newX` of `update`: the matrix handed to the decomposition. -/
def updateNewX (sqrt : Dbl → Dbl) (input : ArrayXXd) (self : PCA) : ArrayXXd :=
  let colBatchMean : ArrayXd := input.colwiseMean
  let input1 : ArrayXXd := input.rowwiseSub colBatchMean
  let meanCorrection : ArrayXd := updateMeanCorrection sqrt input self
  let stacked : ArrayXXd :=
    (ArrayXXd.vstack ((self.mBases.rowwiseMul self.mValues).transpose) input1).vstack
      meanCorrection.transpose
  ⟨self.mBases.cols + input1.rows + meanCorrection.transpose.rows, self.dims, stacked.coeff⟩

/-- The member `update(in)`. -/
def update (svd : ArrayXXd → BDCSVD) (sqrt : Dbl → Dbl) (input : ArrayXXd) (self : PCA) : PCA :=
  let newCount : Int := updateNewCount sqrt input self
  let colMean : ArrayXd := updateColMean sqrt input self
  let mSamplesSeen : Int := newCount
  let dec : BDCSVD := svd (updateNewX sqrt input self)
  { self with
    mValues := dec.singularValues
    mBases := dec.matrixV
    mMean := colMean
    mSamplesSeen := mSamplesSeen + (input.rows : Int) }

/-- The member `clear()`. -/
def clear (self : PCA) : PCA :=
  { self with
    mBases := self.mBases.setZero
    mMean := self.mMean.setZero
    mInitialized := false
    mSamplesSeen := 0 }

end PCA

/-! ## Reference quantities and concrete inputs -/

/-- The sum of column `j` of `data` with every not-a-number entry counted as zero. -/
def nanZeroColSum (data : ArrayXXd) (j : Nat) : ℚ :=
  ∑ i in Finset.range data.rows, (data.coeff i j).toRatZeroNaN

/-- A matrix has no not-a-number entry. -/
def ArrayXXd.NaNFree (a : ArrayXXd) : Prop :=
  ∀ i j, i < a.rows → j < a.cols → (a.coeff i j).isNaN = false

/-- A vector has no not-a-number entry. -/
def ArrayXd.NaNFree (a : ArrayXd) : Prop :=
  ∀ j, j < a.size → (a.coeff j).isNaN = false

/-- A square root for evaluating examples: exact on the squares of rationals. -/
def sqrtOnSquares : Dbl → Dbl
  | Dbl.nan => Dbl.nan
  | Dbl.num q => if q < 0 then Dbl.nan else Dbl.num (Rat.sqrt q)

/-- The empty vector `dummyVariance(0)`. -/
def emptyArray : ArrayXd := ⟨0, fun _ => Dbl.num 0⟩

/-- A fitted model of one feature and one component that has seen three samples. -/
def modelSeen3 : PCA :=
  { mBases := ArrayXXd.ofRows 1 [[1]]
    mValues := ArrayXd.ofList [2]
    mMean := ArrayXd.ofList [0]
    mInitialized := true
    mSamplesSeen := 3 }

/-- A batch of one row and one column. -/
def batchOneRow : ArrayXXd := ArrayXXd.ofRows 1 [[5]]

/-- A batch of two rows and one column: the rows `1` and `3`. -/
def batchRows13 : ArrayXXd := ArrayXXd.ofRows 1 [[1], [3]]

/-- A batch of two rows and one column whose first entry is not-a-number and whose second is 4. -/
def batchNaN4 : ArrayXXd := ⟨2, 1, fun i _ => if i = 0 then Dbl.nan else Dbl.num 4⟩

/-- A fitted model of two features and two components: the basis is the identity, the singular
values are 3 and 1, the mean is zero, four samples have been seen. -/
def modelRank2 : PCA :=
  { mBases := ArrayXXd.ofRows 2 [[1, 0], [0, 1]]
    mValues := ArrayXd.ofList [3, 1]
    mMean := ArrayXd.ofList [0, 0]
    mInitialized := true
    mSamplesSeen := 4 }

/-- A fitted model of one feature and one component that has seen sixteen samples. -/
def modelSeen16 : PCA :=
  { mBases := ArrayXXd.ofRows 1 [[1]]
    mValues := ArrayXd.ofList [2]
    mMean := ArrayXd.ofList [0]
    mInitialized := true
    mSamplesSeen := 16 }

/-- A batch of nine rows and one column, every entry 5. -/
def batchNineFives : ArrayXXd := ⟨9, 1, fun _ _ => Dbl.num 5⟩

/-- The Gram matrix `Aᵀ * A` of a matrix `A`. -/
def gram (A : ArrayXXd) : ArrayXXd := A.transpose.matMul A

/-- The scatter matrix of a dataset about its own column mean: the Gram matrix of the rows
centred on the column mean. -/
def scatter (Y : ArrayXXd) : ArrayXXd := gram (Y.rowwiseSub Y.colwiseMean)

/-- The matrix `Basis * diag(values^2) * Basisᵀ` of a model. -/
def PCA.basisScatter (self : PCA) : ArrayXXd :=
  (self.mBases.rowwiseMul self.mValues.square).matMul self.mBases.transpose

/-- The batch's own mean of column `j`. -/
def batchColMean (data : ArrayXXd) (j : Nat) : ℚ := nanZeroColSum data j / (data.rows : ℚ)

/-- The batch's own variance of column `j`: the mean squared deviation of the column about the
batch's own column mean. -/
def batchColVar (data : ArrayXXd) (j : Nat) : ℚ :=
  (∑ i in Finset.range data.rows, ((data.coeff i j).toRatZeroNaN - batchColMean data j) ^ 2) /
    (data.rows : ℚ)

/-- The mean-correction row as the specification words it, for the count `n` before the update,
the mean `oldMean` before the update and the batch `input` of `R` rows:
`sqrt(n * R / (n + R)) * (oldMean - batchMean)`, with a real-valued quotient. -/
def meanCorrectionBySpec (sqrt : Dbl → Dbl) (n : Int) (input : ArrayXXd) (oldMean : ArrayXd) :
    ArrayXd :=
  ArrayXd.scalarMul
    (sqrt (Dbl.ofInt n * Dbl.ofNat input.rows / Dbl.ofInt (n + (input.rows : Int))))
    (oldMean.sub input.colwiseMean)

/-- The merged variance as the specification words it, for prior count `n`, prior mean `m` and
prior deviation `v` of column `j`:
`(n * v^2 + R * batchVar + (n * R / (n + R)) * (m - batchMean)^2) / (n + R)`. -/
def mergedVarianceBySpec (data : ArrayXXd) (n : Int) (m v : ℚ) (j : Nat) : ℚ :=
  ((n : ℚ) * v ^ 2 + (data.rows : ℚ) * batchColVar data j +
      ((n : ℚ) * (data.rows : ℚ) / ((n : ℚ) + (data.rows : ℚ))) * (m - batchColMean data j) ^ 2) /
    ((n : ℚ) + (data.rows : ℚ))

/-- The dataset of the four points 0, 0, 3, 3: its mean is 3/2 and its scatter is 9. -/
def dataFourPoints : ArrayXXd := ArrayXXd.ofRows 1 [[0], [0], [3], [3]]

/-- The fit of `dataFourPoints`: one feature, basis `[[1]]`, singular value 3, mean 3/2, four
samples seen. -/
def modelFourPoints : PCA :=
  { mBases := ArrayXXd.ofRows 1 [[1]]
    mValues := ArrayXd.ofList [3]
    mMean := ArrayXd.ofList [3 / 2]
    mInitialized := true
    mSamplesSeen := 4 }

/-- A batch of one row and one column with the entry 4. -/
def batchOneRowFour : ArrayXXd := ArrayXXd.ofRows 1 [[4]]

end algorithm

/-! ## `BufSelectEveryClient.hpp` -/

namespace client

/-- The status carried by a `Result`. -/
inductive Status where
  | kOk : Status
  | kError : Status
deriving DecidableEq

/-- The parameters of `BufSelectEveryClient` read by `process` (`startFrame` is `kOffset`). -/
structure BufSelectEveryParams where
  startFrame : Int
  numFrames : Int
  startChan : Int
  numChans : Int
  framehop : Int
  channelhop : Int

/-- The call `std::generate` over a vector of `count` entries with the generator
`[n = start - hop]() mutable { return n += hop; }`; the second argument is the captured `n`. -/
def generateHops : Nat → Int → Int → List Int
  | 0, _, _ => []
  | count + 1, n, hop => (n + hop) :: generateHops count (n + hop) hop

/-- What `process` has done when it returns: the status of its result, the vectors `indices`
and `channels`, and the source positions `(indices[i], channels[c])` it has read, in loop
order. -/
structure ProcessTrace where
  status : Status
  indices : List Int
  channels : List Int
  reads : List (Int × Int)
deriving DecidableEq

/-- The member `BufSelectEveryClient::process` from the reading of the parameters on, for a
source buffer that exists and is valid with `sourceFrames` frames and `sourceChans` channels and
an existing destination whose resizing succeeds or not (`resizeOk`). -/
def BufSelectEveryClient.process (sourceFrames sourceChans : Int) (resizeOk : Bool)
    (p : BufSelectEveryParams) : ProcessTrace :=
  let offset : Int := p.startFrame
  let startChan : Int := p.startChan
  if offset ≥ sourceFrames then ⟨Status.kError, [], [], []⟩
  else if startChan ≥ sourceChans then ⟨Status.kError, [], [], []⟩
  else
    let numFrames : Int := if p.numFrames < 0 then sourceFrames - offset else p.numFrames
    let numChans : Int := if p.numChans < 0 then sourceChans - startChan else p.numChans
    let framehop : Int := p.framehop
    let chanhop : Int := p.channelhop
    let numFrames1 : Int := Int.tdiv (numFrames + 1) framehop
    let numChans1 : Int := Int.tdiv (numChans + 1) chanhop
    if numChans1 ≤ 0 ∨ numFrames1 ≤ 0 then ⟨Status.kError, [], [], []⟩
    else if !resizeOk then ⟨Status.kError, [], [], []⟩
    else
      let indices : List Int := generateHops numFrames1.toNat (offset - framehop) framehop
      let channels : List Int := generateHops numChans1.toNat (startChan - chanhop) chanhop
      let reads : List (Int × Int) :=
        (List.range numChans1.toNat).flatMap fun c =>
          (List.range numFrames1.toNat).map fun i => (indices.getD i 0, channels.getD c 0)
      ⟨Status.kOk, indices, channels, reads⟩

/-- The parameters as declared: start at frame 0 and channel 0, all frames and channels
(`-1`), hops of 1. -/
def defaultParams : BufSelectEveryParams :=
  { startFrame := 0, numFrames := -1, startChan := 0, numChans := -1, framehop := 1,
    channelhop := 1 }

end client

namespace algorithm

/-! ## Basic facts on doubles and sums -/

@[simp] theorem Dbl.num_add_num (a b : ℚ) : Dbl.num a + Dbl.num b = Dbl.num (a + b) := rfl

@[simp] theorem Dbl.num_sub_num (a b : ℚ) : Dbl.num a - Dbl.num b = Dbl.num (a - b) := rfl

@[simp] theorem Dbl.num_mul_num (a b : ℚ) : Dbl.num a * Dbl.num b = Dbl.num (a * b) := rfl

theorem Dbl.num_div_num (a b : ℚ) (hb : b ≠ 0) : Dbl.num a / Dbl.num b = Dbl.num (a / b) := by
  show Dbl.div (Dbl.num a) (Dbl.num b) = _
  simp [Dbl.div, hb]

@[simp] theorem Dbl.nan_add (a : Dbl) : Dbl.nan + a = Dbl.nan := rfl

@[simp] theorem Dbl.add_nan (a : Dbl) : a + Dbl.nan = Dbl.nan := by cases a <;> rfl

@[simp] theorem Dbl.nan_mul (a : Dbl) : Dbl.nan * a = Dbl.nan := rfl

@[simp] theorem Dbl.mul_nan (a : Dbl) : a * Dbl.nan = Dbl.nan := by cases a <;> rfl

@[simp] theorem Dbl.nan_div (a : Dbl) : Dbl.nan / a = Dbl.nan := rfl

theorem Dbl.mul_swap (a b : Dbl) : a * b = b * a := by
  cases a <;> cases b <;> simp [Rat.mul_comm]

theorem Dbl.eq_num_of_isNaN_false {d : Dbl} (h : d.isNaN = false) : d = Dbl.num d.toRatZeroNaN := by
  cases d with
  | nan => simp [Dbl.isNaN] at h
  | num q => rfl

/-- A sum of rational values is the rational sum. -/
theorem sumUpTo_num (g : Nat → ℚ) (n : Nat) :
    sumUpTo (fun i => Dbl.num (g i)) n = Dbl.num (∑ i in Finset.range n, g i) := by
  induction n with
  | zero => simp [sumUpTo]
  | succ n ih => simp [sumUpTo, ih, Finset.sum_range_succ]

/-- Two summands that agree below `n` have the same sum. -/
theorem sumUpTo_congr (f g : Nat → Dbl) (n : Nat) (h : ∀ i, i < n → f i = g i) :
    sumUpTo f n = sumUpTo g n := by
  induction n with
  | zero => rfl
  | succ n ih =>
    simp only [sumUpTo]
    rw [ih (fun i hi => h i (Nat.lt_succ_of_lt hi)), h n (Nat.lt_succ_self n)]

/-- The sum of not-a-number-free values is the rational sum of their values. -/
theorem sumUpTo_of_isNaN_false (f : Nat → Dbl) (n : Nat)
    (h : ∀ i, i < n → (f i).isNaN = false) :
    sumUpTo f n = Dbl.num (∑ i in Finset.range n, (f i).toRatZeroNaN) := by
  rw [← sumUpTo_num]
  exact sumUpTo_congr _ _ n (fun i hi => Dbl.eq_num_of_isNaN_false (h i hi))

/-- The column sums that `incrementalMeanVariance` accumulates are the rational sums of the
entries with not-a-number read as zero. -/
theorem rowSums_coeff (data : ArrayXXd) (j : Nat) :
    data.selectZeroIfNaN.colwiseSum.coeff j = Dbl.num (nanZeroColSum data j) := by
  simp only [ArrayXXd.colwiseSum, ArrayXXd.selectZeroIfNaN, nanZeroColSum]
  rw [← sumUpTo_num]
  apply sumUpTo_congr
  intro i _
  cases h : data.coeff i j <;> simp [Dbl.isNaN, Dbl.toRatZeroNaN]

/-- The count returned by `incrementalMeanVariance` is always the prior count plus the number
of rows of the batch. -/
theorem incrementalMeanVariance_count (sqrt : Dbl → Dbl) (data : ArrayXXd) (n : Int)
    (mean var : ArrayXd) :
    (_impl.incrementalMeanVariance sqrt data n mean var).1 = n + (data.rows : Int) := by
  simp only [_impl.incrementalMeanVariance, ArrayXd.cols]
  split_ifs <;> simp_all

/-- The mean written by `incrementalMeanVariance`. -/
theorem incrementalMeanVariance_mean (sqrt : Dbl → Dbl) (data : ArrayXXd) (n : Int)
    (mean var : ArrayXd) (j : Nat) :
    (_impl.incrementalMeanVariance sqrt data n mean var).2.1.coeff j =
      (mean.coeff j * Dbl.ofInt n + Dbl.num (nanZeroColSum data j)) /
        Dbl.ofInt (n + (data.rows : Int)) := by
  have h : (_impl.incrementalMeanVariance sqrt data n mean var).2.1 =
      ((mean.mulScalar (Dbl.ofInt n)).add data.selectZeroIfNaN.colwiseSum).divScalar
        (Dbl.ofInt (n + (data.rows : Int))) := by
    simp only [_impl.incrementalMeanVariance, ArrayXd.cols]
    split_ifs <;> simp_all
  rw [h]
  simp only [ArrayXd.divScalar, ArrayXd.add, ArrayXd.mulScalar]
  rw [rowSums_coeff]

/-- The size of the mean vector is kept by `incrementalMeanVariance`. -/
theorem incrementalMeanVariance_mean_size (sqrt : Dbl → Dbl) (data : ArrayXXd) (n : Int)
    (mean var : ArrayXd) :
    (_impl.incrementalMeanVariance sqrt data n mean var).2.1.size = mean.size := by
  simp only [_impl.incrementalMeanVariance, ArrayXd.cols]
  split_ifs <;> simp_all [ArrayXd.divScalar, ArrayXd.add, ArrayXd.mulScalar]

/-- An empty variance vector is returned as it was given. -/
theorem incrementalMeanVariance_var_of_empty (sqrt : Dbl → Dbl) (data : ArrayXXd) (n : Int)
    (mean var : ArrayXd) (hv : var.size = 0) :
    (_impl.incrementalMeanVariance sqrt data n mean var).2.2 = var := by
  simp only [_impl.incrementalMeanVariance, ArrayXd.cols, ArrayXd.rows, hv]
  simp

/-- The count stored by `update` is the prior count plus twice the number of rows of the batch:
`mSamplesSeen` is first assigned the new total and then incremented by the row count again. -/
theorem update_mSamplesSeen (svd : ArrayXXd → BDCSVD) (sqrt : Dbl → Dbl) (input : ArrayXXd)
    (self : PCA) :
    (PCA.update svd sqrt input self).mSamplesSeen =
      self.mSamplesSeen + 2 * (input.rows : Int) := by
  simp only [PCA.update, PCA.updateNewCount, incrementalMeanVariance_count]
  ring

/-! ## The claims -/

/-- C1 (count conservation), evaluated on the code: a fitted model that has seen 3 samples is
updated with a batch of one row; the stored sample count becomes 5, whereas count conservation
asks for 3 + 1 = 4. -/
theorem C1_update_count_double_counts (svd : ArrayXXd → BDCSVD) :
    modelSeen3.initialized = true ∧ batchOneRow.cols = modelSeen3.dims ∧
    modelSeen3.mSamplesSeen = 3 ∧ batchOneRow.rows = 1 ∧
    (PCA.update svd sqrtOnSquares batchOneRow modelSeen3).mSamplesSeen = 5 ∧
    (PCA.update svd sqrtOnSquares batchOneRow modelSeen3).mSamplesSeen ≠
      modelSeen3.mSamplesSeen + (batchOneRow.rows : Int) := by
  have h := update_mSamplesSeen svd sqrtOnSquares batchOneRow modelSeen3
  have hr : batchOneRow.rows = 1 := rfl
  have hn : modelSeen3.mSamplesSeen = 3 := rfl
  rw [hr, hn] at h
  refine ⟨rfl, rfl, rfl, rfl, ?_, ?_⟩
  · rw [h]; norm_num
  · rw [h, hr, hn]; norm_num

/-- The column mean of a vertical concatenation of two not-a-number-free batches. -/
theorem colwiseMean_vstack_coeff (B1 B2 : ArrayXXd) (hD : B2.cols = B1.cols)
    (hB1 : B1.NaNFree) (hB2 : B2.NaNFree) (hpos : 0 < B1.rows + B2.rows) (j : Nat)
    (hj : j < B1.cols) :
    (B1.vstack B2).colwiseMean.coeff j =
      Dbl.num ((nanZeroColSum B1 j + nanZeroColSum B2 j) / ((B1.rows : ℚ) + (B2.rows : ℚ))) := by
  have hne : ((B1.rows : ℚ) + (B2.rows : ℚ)) ≠ 0 := by
    have : (0 : ℚ) < ((B1.rows + B2.rows : Nat) : ℚ) := by exact_mod_cast hpos
    push_cast at this
    exact ne_of_gt this
  simp only [ArrayXXd.colwiseMean, ArrayXXd.vstack, Dbl.ofNat]
  rw [sumUpTo_of_isNaN_false]
  · push_cast
    rw [Dbl.num_div_num _ _ hne, Finset.sum_range_add]
    congr 2
    simp only [nanZeroColSum]
    congr 1
    · apply Finset.sum_congr rfl
      intro i hi
      rw [if_pos (Finset.mem_range.mp hi)]
    · apply Finset.sum_congr rfl
      intro i _
      rw [if_neg (by omega)]
      congr 3
      omega
  · intro i hi
    by_cases h : i < B1.rows
    · rw [if_pos h]; exact hB1 i j h hj
    · rw [if_neg h]; exact hB2 (i - B1.rows) j (by omega) (by omega)

/-- C2 (moment update correctness): two not-a-number-free batches `B1` (`n1 ≥ 1` rows) and `B2`
(`n2 ≥ 1` rows) with the same number `D` of columns are folded into the statistics one after the
other, the first from count 0 and a mean vector of `D` numbers, the second from the count and
mean the first call returned; the final count is `n1 + n2` and the final mean is, column by
column, the mean of the concatenation of the two batches, namely
(sum of column of B1 + sum of column of B2) / (n1 + n2). -/
theorem C2_chained_mean_is_concatenation_mean (sqrt : Dbl → Dbl) (B1 B2 : ArrayXXd)
    (mean0 var0 : ArrayXd) (hn1 : 1 ≤ B1.rows) (hn2 : 1 ≤ B2.rows) (hD : B2.cols = B1.cols)
    (hB1 : B1.NaNFree) (hB2 : B2.NaNFree) (hsize : mean0.size = B1.cols)
    (hm : mean0.NaNFree) :
    (_impl.incrementalMeanVariance sqrt B2
        (_impl.incrementalMeanVariance sqrt B1 0 mean0 var0).1
        (_impl.incrementalMeanVariance sqrt B1 0 mean0 var0).2.1
        (_impl.incrementalMeanVariance sqrt B1 0 mean0 var0).2.2).1
      = (B1.rows : Int) + (B2.rows : Int) ∧
    (_impl.incrementalMeanVariance sqrt B2
        (_impl.incrementalMeanVariance sqrt B1 0 mean0 var0).1
        (_impl.incrementalMeanVariance sqrt B1 0 mean0 var0).2.1
        (_impl.incrementalMeanVariance sqrt B1 0 mean0 var0).2.2).2.1.size
      = (B1.vstack B2).colwiseMean.size ∧
    ∀ j, j < B1.cols →
      (_impl.incrementalMeanVariance sqrt B2
          (_impl.incrementalMeanVariance sqrt B1 0 mean0 var0).1
          (_impl.incrementalMeanVariance sqrt B1 0 mean0 var0).2.1
          (_impl.incrementalMeanVariance sqrt B1 0 mean0 var0).2.2).2.1.coeff j
        = (B1.vstack B2).colwiseMean.coeff j ∧
      (B1.vstack B2).colwiseMean.coeff j =
        Dbl.num ((nanZeroColSum B1 j + nanZeroColSum B2 j) /
          ((B1.rows : ℚ) + (B2.rows : ℚ))) := by
  refine ⟨?_, ?_, ?_⟩
  · rw [incrementalMeanVariance_count, incrementalMeanVariance_count]; ring
  · rw [incrementalMeanVariance_mean_size, incrementalMeanVariance_mean_size, hsize]
    rfl
  · intro j hj
    have hcat := colwiseMean_vstack_coeff B1 B2 hD hB1 hB2 (by omega) j hj
    refine ⟨?_, hcat⟩
    rw [hcat, incrementalMeanVariance_mean, incrementalMeanVariance_mean,
      incrementalMeanVariance_count]
    have hmj := Dbl.eq_num_of_isNaN_false (hm j (by omega))
    have h1 : ((B1.rows : Int) : ℚ) ≠ 0 := by
      have : (0 : ℚ) < (B1.rows : ℚ) := by exact_mod_cast hn1
      simpa using ne_of_gt this
    have h2 : (((0 : Int) + (B1.rows : Int) + (B2.rows : Int) : Int) : ℚ) ≠ 0 := by
      have : (0 : ℚ) < ((B1.rows + B2.rows : Nat) : ℚ) := by
        exact_mod_cast (by omega : 0 < B1.rows + B2.rows)
      push_cast at this ⊢
      simpa using ne_of_gt this
    rw [hmj]
    simp only [Dbl.ofInt, Dbl.num_mul_num, Dbl.num_add_num]
    rw [Dbl.num_div_num _ _ (by simpa using h1)]
    simp only [Dbl.num_mul_num, Dbl.num_add_num]
    rw [Dbl.num_div_num _ _ h2]
    congr 1
    push_cast
    have h1' : (B1.rows : ℚ) ≠ 0 := by simpa using h1
    field_simp

/-- Witness of C2: the batches `[1; 3]` and `[5]`, folded in from count 0 and mean `[0]`, give
the count 3 and the mean 3 = (1 + 3 + 5) / 3. -/
theorem C2_chained_mean_is_concatenation_mean_witness :
    (_impl.incrementalMeanVariance sqrtOnSquares batchOneRow
        (_impl.incrementalMeanVariance sqrtOnSquares batchRows13 0 (ArrayXd.ofList [0])
          emptyArray).1
        (_impl.incrementalMeanVariance sqrtOnSquares batchRows13 0 (ArrayXd.ofList [0])
          emptyArray).2.1
        (_impl.incrementalMeanVariance sqrtOnSquares batchRows13 0 (ArrayXd.ofList [0])
          emptyArray).2.2).1 = 3 ∧
    (_impl.incrementalMeanVariance sqrtOnSquares batchOneRow
        (_impl.incrementalMeanVariance sqrtOnSquares batchRows13 0 (ArrayXd.ofList [0])
          emptyArray).1
        (_impl.incrementalMeanVariance sqrtOnSquares batchRows13 0 (ArrayXd.ofList [0])
          emptyArray).2.1
        (_impl.incrementalMeanVariance sqrtOnSquares batchRows13 0 (ArrayXd.ofList [0])
          emptyArray).2.2).2.1.coeff 0 = Dbl.num 3 := by
  have h := C2_chained_mean_is_concatenation_mean sqrtOnSquares batchRows13 batchOneRow
    (ArrayXd.ofList [0]) emptyArray (by decide) (by decide) rfl (fun _ _ _ _ => rfl)
    (fun _ _ _ _ => rfl) rfl (fun _ _ => rfl)
  refine ⟨?_, ?_⟩
  · rw [h.1]; rfl
  · rw [(h.2.2 0 (by decide)).1, (h.2.2 0 (by decide)).2]
    congr 1
    simp [nanZeroColSum, batchRows13, batchOneRow, ArrayXXd.ofRows, Dbl.toRatZeroNaN,
      Finset.sum_range_succ]
    norm_num

/-- C3 (mean update with not-a-number as zero): for a batch of `R` rows and a prior count `n`
with `n + R > 0`, `incrementalMeanVariance` returns `n + R` and writes, in every column `j`,
`(n * m[j] + S[j]) / (n + R)`, where `S[j]` is the sum of column `j` with each not-a-number
entry counted as 0 and `R` counts all rows.  For a prior mean entry of value `q` this is the
number `(n * q + S[j]) / (n + R)`, and for `R > 0` it is the average of `q` and the batch column
mean `S[j] / R` with the weights `n` and `R`. -/
theorem C3_mean_update_nan_as_zero (sqrt : Dbl → Dbl) (data : ArrayXXd) (n : Int)
    (mean var : ArrayXd) (hpos : 0 < n + (data.rows : Int)) :
    (_impl.incrementalMeanVariance sqrt data n mean var).1 = n + (data.rows : Int) ∧
    (∀ j, j < data.cols →
      (_impl.incrementalMeanVariance sqrt data n mean var).2.1.coeff j =
        (Dbl.ofInt n * mean.coeff j + Dbl.num (nanZeroColSum data j)) /
          Dbl.ofInt (n + (data.rows : Int))) ∧
    (∀ j q, j < data.cols → mean.coeff j = Dbl.num q →
      (_impl.incrementalMeanVariance sqrt data n mean var).2.1.coeff j =
        Dbl.num (((n : ℚ) * q + nanZeroColSum data j) / ((n : ℚ) + (data.rows : ℚ))) ∧
      (0 < data.rows →
        (_impl.incrementalMeanVariance sqrt data n mean var).2.1.coeff j =
          Dbl.num (((n : ℚ) * q + (data.rows : ℚ) * (nanZeroColSum data j / (data.rows : ℚ))) /
            ((n : ℚ) + (data.rows : ℚ))))) := by
  have hne : ((n : ℚ) + (data.rows : ℚ)) ≠ 0 := by
    have : (0 : ℚ) < ((n + (data.rows : Int) : Int) : ℚ) := by exact_mod_cast hpos
    push_cast at this
    exact ne_of_gt this
  have hval : ∀ j q, mean.coeff j = Dbl.num q →
      (_impl.incrementalMeanVariance sqrt data n mean var).2.1.coeff j =
        Dbl.num (((n : ℚ) * q + nanZeroColSum data j) / ((n : ℚ) + (data.rows : ℚ))) := by
    intro j q hq
    rw [incrementalMeanVariance_mean, hq]
    simp only [Dbl.ofInt, Dbl.num_mul_num, Dbl.num_add_num]
    push_cast
    rw [Dbl.num_div_num _ _ hne, Rat.mul_comm q]
  refine ⟨incrementalMeanVariance_count sqrt data n mean var, ?_, ?_⟩
  · intro j _
    rw [incrementalMeanVariance_mean, Dbl.mul_swap]
  · intro j q _ hq
    refine ⟨hval j q hq, ?_⟩
    intro hR
    rw [hval j q hq]
    have hR' : (data.rows : ℚ) ≠ 0 := by
      have : (0 : ℚ) < (data.rows : ℚ) := by exact_mod_cast hR
      exact ne_of_gt this
    rw [mul_div_cancel₀ _ hR']

/-- Witness of C3: the batch with the entries not-a-number and 4, the prior count 2 and the prior
mean 1 give the count 4 and the mean (2 * 1 + 0 + 4) / 4 = 3 / 2. -/
theorem C3_mean_update_nan_as_zero_witness :
    (_impl.incrementalMeanVariance sqrtOnSquares batchNaN4 2 (ArrayXd.ofList [1]) emptyArray).1
      = 4 ∧
    (_impl.incrementalMeanVariance sqrtOnSquares batchNaN4 2 (ArrayXd.ofList [1])
      emptyArray).2.1.coeff 0 = Dbl.num (3 / 2) := by
  have h := C3_mean_update_nan_as_zero sqrtOnSquares batchNaN4 2 (ArrayXd.ofList [1]) emptyArray
    (by decide)
  refine ⟨?_, ?_⟩
  · rw [h.1]; rfl
  · rw [(h.2.2 0 1 (by decide) rfl).1]
    congr 1
    simp [nanZeroColSum, batchNaN4, Dbl.toRatZeroNaN, Finset.sum_range_succ]
    norm_num

/-- With `k` equal to the number of components, `processFrame` leaves `out` untouched. -/
theorem processFrame_at_size (self : PCA) (input out : ArrayXd) :
    self.processFrame input out (self.size : Int) = out := by
  simp [PCA.processFrame, PCA.size]

/-- With `k` equal to the number of components, `process` writes the projection. -/
theorem process_at_size (self : PCA) (input out : ArrayXXd) :
    (self.process input out (self.size : Int)).2 =
      (input.rowwiseSub self.mMean).matMul (self.mBases.block self.mBases.rows self.size) := by
  simp [PCA.process, PCA.size]

/-- C4 (projection boundary consistency), evaluated on the code: on a fitted model with two
components and `k = 2 = rank()`, the point form leaves its output untouched (it rejects `k`)
while the batch form writes the projection `(5, 7)` of the same point; with `k = 3` both leave
the output untouched. -/
theorem C4_point_form_rejects_k_eq_rank :
    modelRank2.initialized = true ∧ modelRank2.size = 2 ∧
    modelRank2.processFrame (ArrayXd.ofList [5, 7]) (ArrayXd.ofList [0, 0]) 2
      = ArrayXd.ofList [0, 0] ∧
    (modelRank2.process (ArrayXXd.ofRows 2 [[5, 7]]) (ArrayXXd.ofRows 2 [[0, 0]]) 2).2.coeff 0 0
      = Dbl.num 5 ∧
    (modelRank2.process (ArrayXXd.ofRows 2 [[5, 7]]) (ArrayXXd.ofRows 2 [[0, 0]]) 2).2.coeff 0 1
      = Dbl.num 7 ∧
    modelRank2.processFrame (ArrayXd.ofList [5, 7]) (ArrayXd.ofList [0, 0]) 3
      = ArrayXd.ofList [0, 0] ∧
    (modelRank2.process (ArrayXXd.ofRows 2 [[5, 7]]) (ArrayXXd.ofRows 2 [[0, 0]]) 3).2
      = ArrayXXd.ofRows 2 [[0, 0]] := by
  refine ⟨rfl, rfl, ?_, ?_, ?_, ?_, ?_⟩
  · exact processFrame_at_size modelRank2 _ _
  · have h := process_at_size modelRank2 (ArrayXXd.ofRows 2 [[5, 7]]) (ArrayXXd.ofRows 2 [[0, 0]])
    have hs : ((modelRank2.size : Nat) : Int) = 2 := rfl
    rw [hs] at h
    rw [h]
    simp [ArrayXXd.matMul, ArrayXXd.rowwiseSub, ArrayXXd.block, ArrayXXd.ofRows, ArrayXd.ofList,
      modelRank2, sumUpTo]
  · have h := process_at_size modelRank2 (ArrayXXd.ofRows 2 [[5, 7]]) (ArrayXXd.ofRows 2 [[0, 0]])
    have hs : ((modelRank2.size : Nat) : Int) = 2 := rfl
    rw [hs] at h
    rw [h]
    simp [ArrayXXd.matMul, ArrayXXd.rowwiseSub, ArrayXXd.block, ArrayXXd.ofRows, ArrayXd.ofList,
      modelRank2, sumUpTo]
  · simp [PCA.processFrame, modelRank2, ArrayXXd.ofRows]
  · simp [PCA.process, modelRank2, ArrayXXd.ofRows]

/-- C5 (explained-variance ratio): on an initialized model whose singular values are numbers,
one per component, and have a non-zero sum, the batch form called with `0 ≤ k ≤ rank()` returns
exactly (sum of the first `k` singular values) / (sum of all singular values), the values taken
unsquared. -/
theorem C5_explained_variance_ratio (self : PCA) (input out : ArrayXXd) (k : Int)
    (_hinit : self.initialized = true) (hlen : self.mValues.size = self.size)
    (hfin : self.mValues.NaNFree) (_hk0 : 0 ≤ k) (hk : k ≤ (self.size : Int))
    (hsum : (∑ i in Finset.range self.mValues.size, (self.mValues.coeff i).toRatZeroNaN) ≠ 0) :
    (self.process input out k).1 =
      Dbl.num ((∑ i in Finset.range k.toNat, (self.mValues.coeff i).toRatZeroNaN) /
        (∑ i in Finset.range self.mValues.size, (self.mValues.coeff i).toRatZeroNaN)) := by
  have hk' : ¬ k > (self.mBases.cols : Int) := not_lt.mpr hk
  have hkn : k.toNat ≤ self.mValues.size := by
    rw [hlen]
    have : k.toNat ≤ (self.size : Int).toNat := Int.toNat_le_toNat hk
    simpa using this
  simp only [PCA.process, if_neg hk', ArrayXd.sum]
  rw [sumUpTo_of_isNaN_false _ _ (fun i hi => hfin i (lt_of_lt_of_le hi hkn)),
    sumUpTo_of_isNaN_false _ _ (fun i hi => hfin i hi), Dbl.num_div_num _ _ hsum]

/-- Witness of C5: with the singular values 3 and 1 and `k = 1` the returned ratio is 3 / 4. -/
theorem C5_explained_variance_ratio_witness :
    (modelRank2.process (ArrayXXd.ofRows 2 [[5, 7]]) (ArrayXXd.ofRows 2 [[0, 0]]) 1).1
      = Dbl.num (3 / 4) := by
  have h := C5_explained_variance_ratio modelRank2 (ArrayXXd.ofRows 2 [[5, 7]])
    (ArrayXXd.ofRows 2 [[0, 0]]) 1 rfl rfl (fun _ _ => rfl) (by decide) (by decide)
    (by simp [modelRank2, ArrayXd.ofList, Dbl.toRatZeroNaN, Finset.sum_range_succ]; norm_num)
  rw [h]
  congr 1
  simp [modelRank2, ArrayXd.ofList, Dbl.toRatZeroNaN, Finset.sum_range_succ]
  norm_num

/-- C6 (zero prior count is a no-op) fails: with prior count 0, prior mean `[10]`, no variance
tracking and the batch `[1; 3]`, `incrementalMeanVariance` returns 2, not 0, and overwrites the
mean with 2 = (1 + 3) / 2. -/
theorem C6_zero_prior_count_counterexample :
    (_impl.incrementalMeanVariance sqrtOnSquares batchRows13 0 (ArrayXd.ofList [10])
      emptyArray).1 = 2 ∧
    (_impl.incrementalMeanVariance sqrtOnSquares batchRows13 0 (ArrayXd.ofList [10])
      emptyArray).2.1.coeff 0 = Dbl.num 2 ∧
    ¬ ((_impl.incrementalMeanVariance sqrtOnSquares batchRows13 0 (ArrayXd.ofList [10])
        emptyArray).1 = 0 ∧
      (_impl.incrementalMeanVariance sqrtOnSquares batchRows13 0 (ArrayXd.ofList [10])
        emptyArray).2.1.coeff 0 = (ArrayXd.ofList [10]).coeff 0) := by
  have hc : (_impl.incrementalMeanVariance sqrtOnSquares batchRows13 0 (ArrayXd.ofList [10])
      emptyArray).1 = 2 := by
    rw [incrementalMeanVariance_count]; rfl
  refine ⟨hc, ?_, ?_⟩
  · rw [incrementalMeanVariance_mean]
    have hr : ((0 : Int) + (batchRows13.rows : Int)) = 2 := rfl
    rw [hr]
    simp [nanZeroColSum, batchRows13, ArrayXXd.ofRows, ArrayXd.ofList, Dbl.toRatZeroNaN,
      Dbl.ofInt, Finset.sum_range_succ]
    rw [Dbl.num_div_num _ _ (by norm_num)]
    norm_num
  · intro h
    rw [hc] at h
    exact absurd h.1 (by decide)

/-- C6, amended: with prior count 0 and a batch of `R ≥ 1` rows, `incrementalMeanVariance`
returns `R`, overwrites every mean entry that holds a number with `S[j] / R`, the column mean of
the batch with not-a-number counted as 0, and hands back an empty variance vector unchanged. -/
theorem C6_zero_prior_count_folds_batch (sqrt : Dbl → Dbl) (data : ArrayXXd)
    (mean var : ArrayXd) (hR : 1 ≤ data.rows) :
    (_impl.incrementalMeanVariance sqrt data 0 mean var).1 = (data.rows : Int) ∧
    (∀ j q, j < data.cols → mean.coeff j = Dbl.num q →
      (_impl.incrementalMeanVariance sqrt data 0 mean var).2.1.coeff j =
        Dbl.num (nanZeroColSum data j / (data.rows : ℚ))) ∧
    (var.size = 0 → (_impl.incrementalMeanVariance sqrt data 0 mean var).2.2 = var) := by
  refine ⟨?_, ?_, incrementalMeanVariance_var_of_empty sqrt data 0 mean var⟩
  · rw [incrementalMeanVariance_count]; ring
  · intro j q _ hq
    have hne : (data.rows : ℚ) ≠ 0 := by
      have : (0 : ℚ) < (data.rows : ℚ) := by exact_mod_cast hR
      exact ne_of_gt this
    rw [incrementalMeanVariance_mean, hq]
    simp only [Dbl.ofInt, Dbl.num_mul_num, Dbl.num_add_num]
    push_cast
    rw [Dbl.num_div_num _ _ (by simpa using hne)]
    congr 1
    simp

/-- Witness of C6 (amended): the batch `[1; 3]` with prior count 0 and prior mean `[10]` gives
the count 2 and the mean 2. -/
theorem C6_zero_prior_count_folds_batch_witness :
    (_impl.incrementalMeanVariance sqrtOnSquares batchRows13 0 (ArrayXd.ofList [10])
      emptyArray).1 = 2 ∧
    (_impl.incrementalMeanVariance sqrtOnSquares batchRows13 0 (ArrayXd.ofList [10])
      emptyArray).2.1.coeff 0 = Dbl.num 2 ∧
    (_impl.incrementalMeanVariance sqrtOnSquares batchRows13 0 (ArrayXd.ofList [10])
      emptyArray).2.2 = emptyArray := by
  have h := C6_zero_prior_count_folds_batch sqrtOnSquares batchRows13 (ArrayXd.ofList [10])
    emptyArray (by decide)
  refine ⟨?_, ?_, h.2.2 rfl⟩
  · rw [h.1]; rfl
  · rw [h.2.1 0 10 (by decide) rfl]
    congr 1
    simp [nanZeroColSum, batchRows13, ArrayXXd.ofRows, Dbl.toRatZeroNaN, Finset.sum_range_succ]
    norm_num

/-- The member `clear()` does not touch the singular values. -/
theorem clear_mValues (self : PCA) : self.clear.mValues = self.mValues := rfl

/-- C7 (clear resets to the empty state), evaluated on the code: after `clear()` on a fitted
model with the singular values 3 and 1, the flag is false, the count is 0, basis and mean are
zero, but the two singular values are still stored. -/
theorem C7_clear_keeps_singular_values :
    modelRank2.clear.initialized = false ∧ modelRank2.clear.mSamplesSeen = 0 ∧
    modelRank2.clear.mBases.coeff 0 0 = Dbl.num 0 ∧ modelRank2.clear.mMean.coeff 0 = Dbl.num 0 ∧
    modelRank2.clear.mValues.size = 2 ∧
    modelRank2.clear.mValues.coeff 0 = Dbl.num 3 ∧
    modelRank2.clear.mValues.coeff 1 = Dbl.num 1 :=
  ⟨rfl, rfl, rfl, rfl, rfl, rfl, rfl⟩

/-- C8 (frame condition of load): the three-argument `init` stores exactly the supplied basis,
singular values and mean, sets the flag, and leaves the sample count at its previous value. -/
theorem C8_load_frame_condition (self : PCA) (bases : ArrayXXd) (values mean : ArrayXd) :
    (self.initLoad bases values mean).mBases = bases ∧
    (self.initLoad bases values mean).mValues = values ∧
    (self.initLoad bases values mean).mMean = mean ∧
    (self.initLoad bases values mean).initialized = true ∧
    (self.initLoad bases values mean).mSamplesSeen = self.mSamplesSeen :=
  ⟨rfl, rfl, rfl, rfl, rfl⟩

/-- C9 (uninitialized use is an error) fails: the model left by `clear()` has
`initialized()` false, yet the point form overwrites the output entry 9 with the computed
projection 0, the batch form returns the ratio 1, and `update` changes the stored sample count
from 0 to 2. -/
theorem C9_uninitialized_use_counterexample :
    modelRank2.clear.initialized = false ∧
    (modelRank2.clear.processFrame (ArrayXd.ofList [5, 7]) (ArrayXd.ofList [9]) 1).coeff 0
      = Dbl.num 0 ∧
    (ArrayXd.ofList [9]).coeff 0 = Dbl.num 9 ∧
    (modelRank2.clear.process (ArrayXXd.ofRows 2 [[5, 7]]) (ArrayXXd.ofRows 2 [[9, 9]]) 2).1
      = Dbl.num 1 ∧
    modelRank2.clear.mSamplesSeen = 0 ∧
    (∀ svd : ArrayXXd → BDCSVD,
      (PCA.update svd sqrtOnSquares (ArrayXXd.ofRows 2 [[5, 7]]) modelRank2.clear).mSamplesSeen
        = 2) := by
  refine ⟨rfl, ?_, rfl, ?_, rfl, ?_⟩
  · simp [PCA.processFrame, PCA.clear, modelRank2, ArrayXXd.ofRows, ArrayXXd.setZero,
      ArrayXd.setZero, ArrayXd.ofList, ArrayXd.sub, ArrayXXd.block, rowVecMul, sumUpTo]
  · simp [PCA.process, PCA.clear, modelRank2, ArrayXXd.ofRows, ArrayXd.ofList, ArrayXd.sum,
      ArrayXXd.setZero, sumUpTo]
    rw [Dbl.num_div_num _ _ (by norm_num)]
    norm_num
  · intro svd
    rw [update_mSamplesSeen]
    rfl

/-- C9, amended: the point form, the batch form and `update` never read the flag
`mInitialized`: on a model with the flag set to any value they write the same output, return
the same ratio and store the same basis, singular values, mean and sample count as on the model
with its own flag; `update` leaves the flag as it finds it. -/
theorem C9_initialized_flag_is_not_consulted (svd : ArrayXXd → BDCSVD) (sqrt : Dbl → Dbl)
    (self : PCA) (b : Bool) (x out : ArrayXd) (X Out : ArrayXXd) (k : Int) :
    PCA.processFrame { self with mInitialized := b } x out k = self.processFrame x out k ∧
    PCA.process { self with mInitialized := b } X Out k = self.process X Out k ∧
    PCA.update svd sqrt X { self with mInitialized := b } =
      { PCA.update svd sqrt X self with mInitialized := b } ∧
    (PCA.update svd sqrt X self).mInitialized = self.mInitialized :=
  ⟨rfl, rfl, rfl, rfl⟩

/-- The square root used in the examples is exact on squares. -/
theorem sqrtOnSquares_sq (q : ℚ) (hq : 0 ≤ q) : sqrtOnSquares (Dbl.num (q * q)) = Dbl.num q := by
  have h : ¬ q * q < 0 := not_lt.mpr (mul_self_nonneg q)
  simp only [sqrtOnSquares, if_neg h, Rat.sqrt_eq, abs_of_nonneg hq]

/-- The mean-correction row computed by `update`: since `mSamplesSeen` already holds `newCount`
and the quotient of the two counts is a quotient of integers, the factor is the square root of
the row count of the batch. -/
theorem updateMeanCorrection_coeff (sqrt : Dbl → Dbl) (input : ArrayXXd) (self : PCA)
    (hne : self.mSamplesSeen + (input.rows : Int) ≠ 0) (j : Nat) :
    (PCA.updateMeanCorrection sqrt input self).coeff j =
      sqrt (Dbl.ofNat input.rows) * (self.mMean.coeff j - input.colwiseMean.coeff j) := by
  simp only [PCA.updateMeanCorrection, PCA.updateNewCount, incrementalMeanVariance_count,
    ArrayXd.scalarMul, ArrayXd.sub, Int.tdiv_self hne, one_mul]
  rfl

/-- C10 (mean-correction row), evaluated on the code: with prior count 16, prior mean 0 and a
batch of 9 rows of mean 5, `update` builds the mean-correction entry 3 * (0 - 5) = -15 (factor
`sqrt 9`), whereas `sqrt (16 * 9 / (16 + 9)) * (0 - 5)` is (12 / 5) * (0 - 5) = -12. -/
theorem C10_mean_correction_uses_sqrt_of_row_count :
    modelSeen16.mSamplesSeen = 16 ∧ batchNineFives.rows = 9 ∧
    modelSeen16.mMean.coeff 0 = Dbl.num 0 ∧ batchNineFives.colwiseMean.coeff 0 = Dbl.num 5 ∧
    (PCA.updateMeanCorrection sqrtOnSquares batchNineFives modelSeen16).coeff 0
      = Dbl.num (-15) ∧
    sqrtOnSquares (Dbl.num (16 * 9 / (16 + 9))) *
      (modelSeen16.mMean.coeff 0 - batchNineFives.colwiseMean.coeff 0) = Dbl.num (-12) := by
  have hmean : batchNineFives.colwiseMean.coeff 0 = Dbl.num 5 := by
    simp only [ArrayXXd.colwiseMean, batchNineFives, sumUpTo_num, Dbl.ofNat]
    rw [Dbl.num_div_num _ _ (by norm_num)]
    congr 1
    simp
  have h9 : sqrtOnSquares (Dbl.num 9) = Dbl.num 3 := by
    have h := sqrtOnSquares_sq 3 (by norm_num)
    norm_num at h
    exact h
  have h144 : sqrtOnSquares (Dbl.num (16 * 9 / (16 + 9))) = Dbl.num (12 / 5) := by
    have h := sqrtOnSquares_sq (12 / 5) (by norm_num)
    have e : (16 * 9 / (16 + 9) : ℚ) = 12 / 5 * (12 / 5) := by norm_num
    rw [e]
    exact h
  have hm : modelSeen16.mMean.coeff 0 = Dbl.num 0 := rfl
  refine ⟨rfl, rfl, hm, hmean, ?_, ?_⟩
  · rw [updateMeanCorrection_coeff sqrtOnSquares batchNineFives modelSeen16 (by decide) 0,
      hmean, hm]
    have hr : Dbl.ofNat batchNineFives.rows = Dbl.num 9 := by
      simp [Dbl.ofNat, batchNineFives]
    rw [hr, h9]
    simp
    norm_num
  · rw [h144, hmean, hm]
    simp

/-- The layout of the matrix whose decomposition `update` stores: it has `r + R + 1` rows and
`dims()` columns; for `j < r` its row `j` is `s[j]` times column `j` of the previous basis, its
rows `r .. r + R - 1` are the rows of the batch minus the batch's own column mean, and its last
row is the local `meanCorrection` of `update`. -/
theorem updateNewX_layout (svd : ArrayXXd → BDCSVD) (sqrt : Dbl → Dbl)
    (input : ArrayXXd) (self : PCA) :
    (PCA.update svd sqrt input self).mBases = (svd (PCA.updateNewX sqrt input self)).matrixV ∧
    (PCA.update svd sqrt input self).mValues =
      (svd (PCA.updateNewX sqrt input self)).singularValues ∧
    (PCA.updateNewX sqrt input self).rows = self.size + input.rows + 1 ∧
    (PCA.updateNewX sqrt input self).cols = self.dims ∧
    (∀ j c, j < self.size →
      (PCA.updateNewX sqrt input self).coeff j c = self.mValues.coeff j * self.mBases.coeff c j) ∧
    (∀ i c, i < input.rows →
      (PCA.updateNewX sqrt input self).coeff (self.size + i) c =
        input.coeff i c - input.colwiseMean.coeff c) ∧
    (∀ c, (PCA.updateNewX sqrt input self).coeff (self.size + input.rows) c =
      (PCA.updateMeanCorrection sqrt input self).coeff c) := by
  refine ⟨rfl, rfl, rfl, rfl, ?_, ?_, ?_⟩
  · intro j c hj
    have hj' : j < self.mBases.cols := hj
    have h1 : j < self.mBases.cols + input.rows := by omega
    simp only [PCA.updateNewX, ArrayXXd.vstack, ArrayXXd.transpose, ArrayXXd.rowwiseMul,
      ArrayXXd.rowwiseSub, if_pos h1, if_pos hj']
    exact Dbl.mul_swap _ _
  · intro i c hi
    have h1 : self.mBases.cols + i < self.mBases.cols + input.rows := by omega
    have h2 : ¬ self.mBases.cols + i < self.mBases.cols := by omega
    simp only [PCA.updateNewX, PCA.size, ArrayXXd.vstack, ArrayXXd.transpose,
      ArrayXXd.rowwiseMul, ArrayXXd.rowwiseSub, if_pos h1, if_neg h2, Nat.add_sub_cancel_left]
  · intro c
    have h1 : ¬ self.mBases.cols + input.rows < self.mBases.cols + input.rows := by omega
    simp only [PCA.updateNewX, PCA.size, ArrayXXd.vstack, ArrayXXd.transpose,
      ArrayXXd.rowwiseMul, ArrayXXd.rowwiseSub, ArrayXd.transpose, if_neg h1]

/-- The column mean of the batch of nine rows with the entry 5. -/
theorem batchNineFives_colwiseMean : batchNineFives.colwiseMean.coeff 0 = Dbl.num 5 := by
  simp only [ArrayXXd.colwiseMean, batchNineFives, sumUpTo_num, Dbl.ofNat]
  rw [Dbl.num_div_num _ _ (by norm_num)]
  congr 1
  simp

/-- C12 (augmented-matrix construction), evaluated on the code: with prior count 16, prior mean
0, basis `[[1]]`, singular value 2 and a batch of 9 rows with the entry 5, the matrix handed to
the decomposition has 1 + 9 + 1 = 11 rows and 1 column, its row 0 is 2 * 1 = 2 and its rows
1 to 9 are 5 - 5 = 0, as specified, but its last row is -15 (factor `sqrt 9`), whereas the
specified mean-correction row `sqrt (16 * 9 / (16 + 9)) * (0 - 5)` is -12. -/
theorem C12_last_row_is_not_the_specified_mean_correction :
    modelSeen16.size = 1 ∧ modelSeen16.dims = 1 ∧ batchNineFives.rows = 9 ∧
    batchNineFives.cols = 1 ∧
    (PCA.updateNewX sqrtOnSquares batchNineFives modelSeen16).rows = 11 ∧
    (PCA.updateNewX sqrtOnSquares batchNineFives modelSeen16).cols = 1 ∧
    (PCA.updateNewX sqrtOnSquares batchNineFives modelSeen16).coeff 0 0 = Dbl.num 2 ∧
    (∀ i, i < 9 →
      (PCA.updateNewX sqrtOnSquares batchNineFives modelSeen16).coeff (1 + i) 0 = Dbl.num 0) ∧
    (PCA.updateNewX sqrtOnSquares batchNineFives modelSeen16).coeff 10 0 = Dbl.num (-15) ∧
    (meanCorrectionBySpec sqrtOnSquares 16 batchNineFives modelSeen16.mMean).coeff 0
      = Dbl.num (-12) ∧
    (PCA.updateNewX sqrtOnSquares batchNineFives modelSeen16).coeff 10 0 ≠
      (meanCorrectionBySpec sqrtOnSquares 16 batchNineFives modelSeen16.mMean).coeff 0 := by
  have hlay := updateNewX_layout (fun X => ⟨X, emptyArray⟩) sqrtOnSquares batchNineFives
    modelSeen16
  have hmean := batchNineFives_colwiseMean
  have hm : modelSeen16.mMean.coeff 0 = Dbl.num 0 := rfl
  have h9 : sqrtOnSquares (Dbl.num 9) = Dbl.num 3 := by
    have h := sqrtOnSquares_sq 3 (by norm_num)
    norm_num at h
    exact h
  have h144 : sqrtOnSquares (Dbl.num (144 / 25)) = Dbl.num (12 / 5) := by
    have h := sqrtOnSquares_sq (12 / 5) (by norm_num)
    have e : (144 / 25 : ℚ) = 12 / 5 * (12 / 5) := by norm_num
    rw [e]
    exact h
  have hlast : (PCA.updateNewX sqrtOnSquares batchNineFives modelSeen16).coeff 10 0
      = Dbl.num (-15) := by
    have h := hlay.2.2.2.2.2.2 0
    have e : modelSeen16.size + batchNineFives.rows = 10 := rfl
    rw [e] at h
    rw [h, updateMeanCorrection_coeff sqrtOnSquares batchNineFives modelSeen16 (by decide) 0,
      hmean, hm]
    have hr : Dbl.ofNat batchNineFives.rows = Dbl.num 9 := by
      simp [Dbl.ofNat, batchNineFives]
    rw [hr, h9]
    simp
    norm_num
  have hspec : (meanCorrectionBySpec sqrtOnSquares 16 batchNineFives modelSeen16.mMean).coeff 0
      = Dbl.num (-12) := by
    simp only [meanCorrectionBySpec, ArrayXd.scalarMul, ArrayXd.sub, hmean, hm]
    have hq : Dbl.ofInt 16 * Dbl.ofNat batchNineFives.rows /
        Dbl.ofInt (16 + (batchNineFives.rows : Int)) = Dbl.num (144 / 25) := by
      have hr : batchNineFives.rows = 9 := rfl
      rw [hr]
      simp only [Dbl.ofInt, Dbl.ofNat, Dbl.num_mul_num]
      rw [Dbl.num_div_num _ _ (by norm_num)]
      congr 1
      norm_num
    rw [hq, h144]
    simp
  refine ⟨rfl, rfl, rfl, rfl, hlay.2.2.1, hlay.2.2.2.1, ?_, ?_, hlast, hspec, ?_⟩
  · rw [hlay.2.2.2.2.1 0 0 (by decide)]
    simp [modelSeen16, ArrayXd.ofList, ArrayXXd.ofRows]
  · intro i hi
    have h := hlay.2.2.2.2.2.1 i 0 (by simpa [batchNineFives] using hi)
    have e : modelSeen16.size + i = 1 + i := rfl
    rw [e] at h
    rw [h, hmean]
    simp [batchNineFives]
  · rw [hlast, hspec]
    intro h
    injection h with h
    norm_num at h

end algorithm

namespace client

/-- The vector filled by `std::generate`: entry `i` is `n + (i + 1) * hop`. -/
theorem generateHops_eq_map (count : Nat) (n hop : Int) :
    generateHops count n hop =
      (List.range count).map (fun (i : Nat) => n + ((i : Int) + 1) * hop) := by
  induction count generalizing n with
  | zero => rfl
  | succ c ih =>
    rw [generateHops, ih, List.range_succ_eq_map, List.map_cons, List.map_map]
    congr 1
    · simp
    · apply List.map_congr_left
      intro i _
      simp only [Function.comp, Nat.succ_eq_add_one]
      push_cast
      ring

/-- C14 (reads stay in range), evaluated on the code: for a source of one frame and one channel
and the declared default parameters, `process` succeeds with `indices = [0, 1]` and
`channels = [0, 1]`, so it reads the source positions with frame 1 and with channel 1, which are
not below the frame count 1 and the channel count 1. -/
theorem C14_default_parameters_read_past_the_end :
    BufSelectEveryClient.process 1 1 true defaultParams =
      ⟨Status.kOk, [0, 1], [0, 1], [(0, 0), (1, 0), (0, 1), (1, 1)]⟩ ∧
    (BufSelectEveryClient.process 1 1 true defaultParams).indices.getD 1 0 = 1 ∧
    (BufSelectEveryClient.process 1 1 true defaultParams).channels.getD 1 0 = 1 ∧
    ¬ ((BufSelectEveryClient.process 1 1 true defaultParams).indices.getD 1 0 < 1) := by
  decide

end client

namespace algorithm

/-- C13 (merge exactness of update), evaluated on the code: the model holds the fit of the
dataset `[0; 0; 3; 3]` (mean 3/2, count 4, `Basis * diag(values^2) * Basisᵀ` equal to the scatter
matrix 9 of the dataset) and is updated with the batch `[4]`.  The matrix `A` built by `update`
has the rows 3, 0 and -5/2, so `Aᵀ * A = 61/4`, whereas the scatter matrix of the concatenation
`[0; 0; 3; 3; 4]` about its mean 2 is 14. -/
theorem C13_update_gram_is_not_merged_scatter :
    modelFourPoints.mMean.coeff 0 = dataFourPoints.colwiseMean.coeff 0 ∧
    modelFourPoints.mSamplesSeen = (dataFourPoints.rows : Int) ∧
    modelFourPoints.basisScatter.coeff 0 0 = Dbl.num 9 ∧
    (scatter dataFourPoints).coeff 0 0 = Dbl.num 9 ∧
    (PCA.updateNewX sqrtOnSquares batchOneRowFour modelFourPoints).rows = 3 ∧
    (PCA.updateNewX sqrtOnSquares batchOneRowFour modelFourPoints).coeff 0 0 = Dbl.num 3 ∧
    (PCA.updateNewX sqrtOnSquares batchOneRowFour modelFourPoints).coeff 1 0 = Dbl.num 0 ∧
    (PCA.updateNewX sqrtOnSquares batchOneRowFour modelFourPoints).coeff 2 0
      = Dbl.num (-5 / 2) ∧
    (gram (PCA.updateNewX sqrtOnSquares batchOneRowFour modelFourPoints)).coeff 0 0
      = Dbl.num (61 / 4) ∧
    (scatter (dataFourPoints.vstack batchOneRowFour)).coeff 0 0 = Dbl.num 14 := by
  have hX : dataFourPoints.colwiseMean.coeff 0 = Dbl.num (3 / 2) := by
    simp only [ArrayXXd.colwiseMean, dataFourPoints, ArrayXXd.ofRows, sumUpTo_num, Dbl.ofNat]
    rw [Dbl.num_div_num _ _ (by norm_num)]
    congr 1
    simp [Finset.sum_range_succ]
    norm_num
  have hB : batchOneRowFour.colwiseMean.coeff 0 = Dbl.num 4 := by
    simp only [ArrayXXd.colwiseMean, batchOneRowFour, ArrayXXd.ofRows, sumUpTo_num, Dbl.ofNat]
    rw [Dbl.num_div_num _ _ (by norm_num)]
    simp
  have hXB : (dataFourPoints.vstack batchOneRowFour).colwiseMean.coeff 0 = Dbl.num 2 := by
    rw [colwiseMean_vstack_coeff dataFourPoints batchOneRowFour rfl (fun _ _ _ _ => rfl)
      (fun _ _ _ _ => rfl) (by decide) 0 (by decide)]
    congr 1
    simp [nanZeroColSum, dataFourPoints, batchOneRowFour, ArrayXXd.ofRows, Dbl.toRatZeroNaN,
      Finset.sum_range_succ]
    norm_num
  have h1 : sqrtOnSquares (Dbl.num 1) = Dbl.num 1 := by
    have h := sqrtOnSquares_sq 1 (by norm_num)
    norm_num at h
    exact h
  have hmc : (PCA.updateMeanCorrection sqrtOnSquares batchOneRowFour modelFourPoints).coeff 0
      = Dbl.num (-5 / 2) := by
    rw [updateMeanCorrection_coeff sqrtOnSquares batchOneRowFour modelFourPoints (by decide) 0,
      hB]
    have hr : Dbl.ofNat batchOneRowFour.rows = Dbl.num 1 := by
      simp [Dbl.ofNat, batchOneRowFour, ArrayXXd.ofRows]
    have hm : modelFourPoints.mMean.coeff 0 = Dbl.num (3 / 2) := by
      simp [modelFourPoints, ArrayXd.ofList]
    rw [hr, h1, hm]
    simp
    norm_num
  have hA0 : (PCA.updateNewX sqrtOnSquares batchOneRowFour modelFourPoints).coeff 0 0
      = Dbl.num 3 := by
    simp [PCA.updateNewX, ArrayXXd.vstack, ArrayXXd.transpose, ArrayXXd.rowwiseMul,
      ArrayXXd.rowwiseSub, modelFourPoints, batchOneRowFour, ArrayXXd.ofRows, ArrayXd.ofList]
  have hA1 : (PCA.updateNewX sqrtOnSquares batchOneRowFour modelFourPoints).coeff 1 0
      = Dbl.num 0 := by
    have e : (PCA.updateNewX sqrtOnSquares batchOneRowFour modelFourPoints).coeff 1 0
        = batchOneRowFour.coeff 0 0 - batchOneRowFour.colwiseMean.coeff 0 := by
      simp [PCA.updateNewX, ArrayXXd.vstack, ArrayXXd.transpose, ArrayXXd.rowwiseMul,
        ArrayXXd.rowwiseSub, modelFourPoints, batchOneRowFour, ArrayXXd.ofRows]
    rw [e, hB]
    simp [batchOneRowFour, ArrayXXd.ofRows]
  have hA2 : (PCA.updateNewX sqrtOnSquares batchOneRowFour modelFourPoints).coeff 2 0
      = Dbl.num (-5 / 2) := by
    have e : (PCA.updateNewX sqrtOnSquares batchOneRowFour modelFourPoints).coeff 2 0
        = (PCA.updateMeanCorrection sqrtOnSquares batchOneRowFour modelFourPoints).coeff 0 := by
      simp [PCA.updateNewX, ArrayXXd.vstack, ArrayXXd.transpose, ArrayXXd.rowwiseMul,
        ArrayXXd.rowwiseSub, ArrayXd.transpose, modelFourPoints, batchOneRowFour,
        ArrayXXd.ofRows]
    rw [e, hmc]
  refine ⟨?_, rfl, ?_, ?_, rfl, hA0, hA1, hA2, ?_, ?_⟩
  · rw [hX]
    simp [modelFourPoints, ArrayXd.ofList]
  · simp [PCA.basisScatter, ArrayXXd.matMul, ArrayXXd.transpose, ArrayXXd.rowwiseMul,
      ArrayXd.square, modelFourPoints, ArrayXXd.ofRows, ArrayXd.ofList, sumUpTo]
    norm_num
  · simp only [scatter, gram, ArrayXXd.matMul, ArrayXXd.transpose, ArrayXXd.rowwiseSub, hX]
    simp [dataFourPoints, ArrayXXd.ofRows, sumUpTo]
    norm_num
  · have hr : (PCA.updateNewX sqrtOnSquares batchOneRowFour modelFourPoints).rows = 3 := rfl
    simp only [gram, ArrayXXd.matMul, ArrayXXd.transpose, hr, sumUpTo, hA0, hA1, hA2]
    simp
    norm_num
  · simp only [scatter, gram, ArrayXXd.matMul, ArrayXXd.transpose, ArrayXXd.rowwiseSub, hXB]
    simp [ArrayXXd.vstack, dataFourPoints, batchOneRowFour, ArrayXXd.ofRows, sumUpTo]
    norm_num

/-- The deviation written by `incrementalMeanVariance` when the variance is tracked, with the
expressions of the source spelled out coefficient by coefficient. -/
theorem incrementalMeanVariance_var_unfold (sqrt : Dbl → Dbl) (data : ArrayXXd) (n : Int)
    (mean var : ArrayXd) (hv : 0 < var.size) (j : Nat) :
    (_impl.incrementalMeanVariance sqrt data n mean var).2.2.coeff j =
      sqrt (((var.coeff j * var.coeff j * Dbl.ofInt n +
          sumUpTo (fun i =>
            (data.selectZeroIfNaN.coeff i j -
              (mean.coeff j * Dbl.ofInt n + data.selectZeroIfNaN.colwiseSum.coeff j) /
                Dbl.ofInt (n + (data.rows : Int))) *
            (data.selectZeroIfNaN.coeff i j -
              (mean.coeff j * Dbl.ofInt n + data.selectZeroIfNaN.colwiseSum.coeff j) /
                Dbl.ofInt (n + (data.rows : Int)))) data.rows / Dbl.ofNat data.rows *
            Dbl.ofInt (data.rows : Int)) +
          Dbl.ofInt n / Dbl.ofInt (data.rows : Int) / Dbl.ofInt (n + (data.rows : Int)) *
            ((mean.coeff j * Dbl.ofInt n / (Dbl.ofInt n / Dbl.ofInt (data.rows : Int)) -
                data.selectZeroIfNaN.colwiseSum.coeff j) *
              (mean.coeff j * Dbl.ofInt n / (Dbl.ofInt n / Dbl.ofInt (data.rows : Int)) -
                data.selectZeroIfNaN.colwiseSum.coeff j))) /
        Dbl.ofInt (n + (data.rows : Int))) := by
  have h1 : ArrayXd.cols mean > 0 := by simp [ArrayXd.cols]
  have h2 : var.rows > 0 := hv
  simp only [_impl.incrementalMeanVariance, if_pos h1, if_pos h2]
  rfl

/-- The quotient of two numbers, with the test of the divisor kept. -/
theorem Dbl.num_div_num_ite (a b : ℚ) :
    Dbl.num a / Dbl.num b = if b = 0 then Dbl.nan else Dbl.num (a / b) := rfl

/-- The deviation written by `incrementalMeanVariance` as a rational expression. -/
theorem incrementalMeanVariance_var_value (sqrt : Dbl → Dbl) (data : ArrayXXd) (n : Int)
    (mean var : ArrayXd) (j : Nat) (q w : ℚ) (hn : 1 ≤ n) (hR : 1 ≤ data.rows)
    (hv : 0 < var.size) (hq : mean.coeff j = Dbl.num q) (hw : var.coeff j = Dbl.num w) :
    (_impl.incrementalMeanVariance sqrt data n mean var).2.2.coeff j =
      sqrt (Dbl.num ((w * w * (n : ℚ) +
          (∑ i in Finset.range data.rows,
            ((data.coeff i j).toRatZeroNaN -
              (q * (n : ℚ) + nanZeroColSum data j) / ((n : ℚ) + (data.rows : ℚ))) *
            ((data.coeff i j).toRatZeroNaN -
              (q * (n : ℚ) + nanZeroColSum data j) / ((n : ℚ) + (data.rows : ℚ)))) /
              (data.rows : ℚ) * (data.rows : ℚ) +
          (n : ℚ) / (data.rows : ℚ) / ((n : ℚ) + (data.rows : ℚ)) *
            ((q * (n : ℚ) / ((n : ℚ) / (data.rows : ℚ)) - nanZeroColSum data j) *
              (q * (n : ℚ) / ((n : ℚ) / (data.rows : ℚ)) - nanZeroColSum data j))) /
        ((n : ℚ) + (data.rows : ℚ)))) := by
  have hn0 : (n : ℚ) ≠ 0 := by
    have : (0 : ℚ) < (n : ℚ) := by exact_mod_cast hn
    exact ne_of_gt this
  have hR0 : (data.rows : ℚ) ≠ 0 := by
    have : (0 : ℚ) < (data.rows : ℚ) := by exact_mod_cast hR
    exact ne_of_gt this
  have hnR : (n : ℚ) + (data.rows : ℚ) ≠ 0 := by
    have h1 : (0 : ℚ) < (n : ℚ) := by exact_mod_cast hn
    have h2 : (0 : ℚ) < (data.rows : ℚ) := by exact_mod_cast hR
    exact ne_of_gt (add_pos h1 h2)
  have hlc : (n : ℚ) / (data.rows : ℚ) ≠ 0 := div_ne_zero hn0 hR0
  have hsel : ∀ i, data.selectZeroIfNaN.coeff i j = Dbl.num (data.coeff i j).toRatZeroNaN := by
    intro i
    simp only [ArrayXXd.selectZeroIfNaN]
    cases h : data.coeff i j <;> simp [Dbl.isNaN, Dbl.toRatZeroNaN]
  rw [incrementalMeanVariance_var_unfold sqrt data n mean var hv j, rowSums_coeff, hq, hw]
  simp only [hsel, Dbl.ofInt, Dbl.ofNat, Int.cast_add, Int.cast_natCast, Dbl.num_mul_num,
    Dbl.num_add_num, Dbl.num_sub_num, Dbl.num_div_num_ite, if_neg hnR, if_neg hR0, if_neg hlc,
    sumUpTo_num]

/-- The squared deviations of `x 0, ..., x (R-1)` about any `c` are those about the mean of
the `x i` plus `R` times the squared distance of `c` from that mean. -/
theorem sum_sq_dev_about (x : Nat → ℚ) (R : Nat) (hR : (R : ℚ) ≠ 0) (c : ℚ) :
    ∑ i in Finset.range R, (x i - c) * (x i - c) =
      ∑ i in Finset.range R, (x i - (∑ i in Finset.range R, x i) / (R : ℚ)) ^ 2 +
        (R : ℚ) * ((∑ i in Finset.range R, x i) / (R : ℚ) - c) ^ 2 := by
  set b : ℚ := (∑ i in Finset.range R, x i) / (R : ℚ) with hb
  have hsum : ∑ i in Finset.range R, (x i - b) = 0 := by
    rw [Finset.sum_sub_distrib, Finset.sum_const, Finset.card_range, nsmul_eq_mul, hb]
    field_simp
  have hexp : ∀ i, (x i - c) * (x i - c) = (x i - b) ^ 2 + (2 * (b - c) * (x i - b) + (b - c) ^ 2) := by
    intro i; ring
  simp only [hexp]
  rw [Finset.sum_add_distrib, Finset.sum_add_distrib, ← Finset.mul_sum, hsum, Finset.sum_const,
    Finset.card_range, nsmul_eq_mul]
  ring

/-- The deviation written by `incrementalMeanVariance` against the specified merge: the radicand
of the code is the specified one plus `R * n^2 * (m - batchMean)^2 / (n + R)^3`, because the
squared deviations of the batch are taken about the already updated mean. -/
theorem incrementalMeanVariance_var_vs_spec (sqrt : Dbl → Dbl) (data : ArrayXXd) (n : Int)
    (mean var : ArrayXd) (j : Nat) (q w : ℚ) (hn : 1 ≤ n) (hR : 1 ≤ data.rows)
    (hv : 0 < var.size) (hq : mean.coeff j = Dbl.num q) (hw : var.coeff j = Dbl.num w) :
    (_impl.incrementalMeanVariance sqrt data n mean var).2.2.coeff j =
      sqrt (Dbl.num (mergedVarianceBySpec data n q w j +
        (data.rows : ℚ) * (n : ℚ) ^ 2 * (q - batchColMean data j) ^ 2 /
          ((n : ℚ) + (data.rows : ℚ)) ^ 3)) := by
  have hn0 : (n : ℚ) ≠ 0 := by
    have : (0 : ℚ) < (n : ℚ) := by exact_mod_cast hn
    exact ne_of_gt this
  have hR0 : (data.rows : ℚ) ≠ 0 := by
    have : (0 : ℚ) < (data.rows : ℚ) := by exact_mod_cast hR
    exact ne_of_gt this
  have hnR : (n : ℚ) + (data.rows : ℚ) ≠ 0 := by
    have h1 : (0 : ℚ) < (n : ℚ) := by exact_mod_cast hn
    have h2 : (0 : ℚ) < (data.rows : ℚ) := by exact_mod_cast hR
    exact ne_of_gt (add_pos h1 h2)
  rw [incrementalMeanVariance_var_value sqrt data n mean var j q w hn hR hv hq hw]
  congr 2
  rw [sum_sq_dev_about (fun i => (data.coeff i j).toRatZeroNaN) data.rows hR0]
  simp only [mergedVarianceBySpec, batchColVar, batchColMean, nanZeroColSum]
  field_simp
  ring

/-- C11 (variance update formula), evaluated on the code: with prior count 1, prior mean 0,
stored deviation 0 and the one-row batch `[5]`, `incrementalMeanVariance` writes the square root
of 75/8, whereas the specified merge (batch variance 0 about the batch's own mean 5) is the
square root of 25/4, that is 5/2. -/
theorem C11_batch_deviations_taken_about_updated_mean (sqrt : Dbl → Dbl) :
    (_impl.incrementalMeanVariance sqrt batchOneRow 1 (ArrayXd.ofList [0])
      (ArrayXd.ofList [0])).2.2.coeff 0 = sqrt (Dbl.num (75 / 8)) ∧
    batchColMean batchOneRow 0 = 5 ∧ batchColVar batchOneRow 0 = 0 ∧
    mergedVarianceBySpec batchOneRow 1 0 0 0 = 25 / 4 ∧
    sqrtOnSquares (Dbl.num (25 / 4)) = Dbl.num (5 / 2) := by
  have hbm : batchColMean batchOneRow 0 = 5 := by
    simp [batchColMean, nanZeroColSum, batchOneRow, ArrayXXd.ofRows, Dbl.toRatZeroNaN]
  have hbv : batchColVar batchOneRow 0 = 0 := by
    simp only [batchColVar, hbm]
    simp [batchOneRow, ArrayXXd.ofRows, Dbl.toRatZeroNaN]
  have hspec : mergedVarianceBySpec batchOneRow 1 0 0 0 = 25 / 4 := by
    simp only [mergedVarianceBySpec, hbm, hbv]
    simp [batchOneRow, ArrayXXd.ofRows]
    norm_num
  refine ⟨?_, hbm, hbv, hspec, ?_⟩
  · rw [incrementalMeanVariance_var_vs_spec sqrt batchOneRow 1 (ArrayXd.ofList [0])
      (ArrayXd.ofList [0]) 0 0 0 (by decide) (by decide) (by decide) rfl rfl, hspec, hbm]
    congr 2
    simp [batchOneRow, ArrayXXd.ofRows]
    norm_num
  · have h := sqrtOnSquares_sq (5 / 2) (by norm_num)
    have e : (25 / 4 : ℚ) = 5 / 2 * (5 / 2) := by norm_num
    rw [e]
    exact h

end algorithm

namespace client

/-- With hops of 1 and all frames requested, the frame index equal to the frame count of the
source is among the indices read, whatever the valid start frame. -/
theorem process_unit_hop_reads_frame_count (F C o sc : Int) (_ho : 0 ≤ o) (hoF : o < F)
    (_hsc : 0 ≤ sc) (hscC : sc < C) :
    (BufSelectEveryClient.process F C true ⟨o, -1, sc, -1, 1, 1⟩).status = Status.kOk ∧
    F ∈ (BufSelectEveryClient.process F C true ⟨o, -1, sc, -1, 1, 1⟩).indices := by
  have h1 : ¬ o ≥ F := by omega
  have h2 : ¬ sc ≥ C := by omega
  have h3 : ¬ (C - sc + 1 ≤ 0 ∨ F - o + 1 ≤ 0) := by omega
  simp only [BufSelectEveryClient.process, if_neg h1, if_neg h2, Int.tdiv_one,
    show ((-1 : Int) < 0) from by decide, if_true, if_neg h3, Bool.not_true,
    Bool.false_eq_true, if_false, generateHops_eq_map, List.mem_map, List.mem_range]
  refine ⟨trivial, (F - o).toNat, ?_, ?_⟩
  · omega
  · have : (((F - o).toNat : Nat) : Int) = F - o := Int.toNat_of_nonneg (by omega)
    rw [this]
    ring

end client
end fluid
